import Mathlib

/-!
Verification of the formulation-knowledge-base application (`app_gsheets.py`).

This file gives a shallow embedding of the application's pure core:
the surfactant rule catalog and scoring engine, the tabular
filter/join/frequency pipeline, and the mutation layer (add formulation,
bulk add ingredients), together with theorems checking the design
specification against that embedding.

Modelling conventions:
- Spreadsheet tables are Lean lists of records; numeric id columns are `Nat`.
- Python string operations are modelled on the character list `String.data`
  (`lowerStr` for `str.lower`, `stripStr` for `str.strip`, `splitStr` for
  single-character `str.split`), because the Lean core `String` functions do
  not reduce in the kernel.  The model covers the ASCII fragment actually
  used by the data; line endings are modelled as `\n` (after the source's own
  `replace("\r", "\n")` normalisation).
- The source file spells some tags with the Unicode non-breaking hyphen
  U+2011 (e.g. "sulfate‑free", "cost‑effective"), consistently in both the
  catalog data and in `score_system`'s membership tests.  The embedding uses
  those exact strings.
- `sorted(..., key=k, reverse=True)` (CPython, stable) is modelled by
  `List.insertionSort` with the relation `k b ≤ k a`, which is the stable
  descending sort; `pandas.sort_values` is modelled the same way, the claims
  checked about it only concern the resulting key order.
-/

namespace AppGsheets

/-- Model of Python `str.lower` on the code points of a string
(ASCII case mapping, as used by the data in scope). -/
def lowerStr (s : String) : String := ⟨s.data.map Char.toLower⟩

/-- Model of Python `str.strip`: drop leading and trailing whitespace. -/
def stripStr (s : String) : String :=
  ⟨((s.data.dropWhile Char.isWhitespace).reverse.dropWhile Char.isWhitespace).reverse⟩

/-- Split a character list at every occurrence of the separator character.
Mirrors Python `str.split(sep)` for a one-character separator:
the empty string yields `[""]`, and separators at the ends yield empty pieces. -/
def splitCharList (sep : Char) : List Char → List (List Char)
  | [] => [[]]
  | c :: cs =>
    let r := splitCharList sep cs
    if c = sep then [] :: r
    else
      match r with
      | [] => [[c]]
      | h :: t => (c :: h) :: t

/-- Model of Python `str.split(sep)` for a one-character separator. -/
def splitStr (sep : Char) (s : String) : List String :=
  (splitCharList sep s.data).map (fun cs => ⟨cs⟩)

/-- Model of Python `str.replace("\r", "\n")` (single-character replacement). -/
def replaceChar (old new : Char) (s : String) : String :=
  ⟨s.data.map (fun c => if c = old then new else c)⟩

/-!
## Rule catalog and scoring engine (source lines 37-102 and 259-276)
-/

/-- Candidate surfactant system of the rule catalog: a name and a list of
free-text tags (the ingredient combo rows play no role in scoring and are
omitted from the embedding). -/
structure SurfSystem where
  name : String
  tags : List String
  deriving DecidableEq

/-- The four candidate systems of `BODY_WASH_RULES["surfactant_systems"]`,
with the tag strings exactly as in the source (U+2011 hyphens). -/
def bodyWashSystems : List SurfSystem :=
  [ ⟨"Classic SLES/CAPB", ["cost‑effective", "medium mildness"]⟩,
    ⟨"Sulfate‑Free APG/Betaine", ["mild", "green", "sulfate‑free"]⟩,
    ⟨"Sarcosinate/Betaine (clear gel)", ["mild", "clarity"]⟩,
    ⟨"AOS/CAPB (high foam)", ["high foam", "cost"]⟩ ]

/-- The three user preference toggles of the recommender sidebar. -/
structure Prefs where
  wantSulfateFree : Bool
  wantMild : Bool
  wantHighFoam : Bool
  deriving DecidableEq

/-- Embedding of `score_system` (source lines 261-272): a running score
accumulated by four independent tag checks. -/
def score_system (p : Prefs) (s : SurfSystem) : Nat :=
  let score := 0
  let score := if p.wantSulfateFree ∧ "sulfate‑free" ∈ s.tags then score + 2 else score
  let score := if p.wantMild ∧ "mild" ∈ s.tags then score + 2 else score
  let score := if p.wantHighFoam ∧ "high foam" ∈ s.tags then score + 1 else score
  let score := if ¬ p.wantMild ∧ "cost" ∈ s.tags then score + 1 else score
  score

/-- Embedding of `ranked = sorted(candidates, key=score_system, reverse=True)`
(source line 273): CPython's sort is stable, and with `reverse=True` ties keep
their original order, which is exactly stable insertion sort under the
relation `score b ≤ score a`. -/
def ranked (p : Prefs) : List SurfSystem :=
  List.insertionSort (fun a b => score_system p b ≤ score_system p a) bodyWashSystems

/-!
## Data model (source lines 30-35, one record type per table)
-/

/-- Row of the `Brands` table. -/
structure Brand where
  id : Nat
  name : String
  deriving DecidableEq

/-- Row of the `Formulations` table. -/
structure Formulation where
  id : Nat
  name : String
  brand_id : Nat
  category : String
  product_type : String
  notes : String
  deriving DecidableEq

/-- Row of the `Ingredients` table. -/
structure Ingredient where
  id : Nat
  inci_name : String
  common_name : String
  function : String
  cas : String
  deriving DecidableEq

/-- Row of the `Formulation_Ingredients` table. -/
structure FIRow where
  id : Nat
  formulation_id : Nat
  ingredient_id : Nat
  percentage : String
  phase : String
  notes : String
  deriving DecidableEq

/-!
## Filtered formulation view (source lines 199-211)
-/

/-- Embedding of the `brand_name_to_id` dict comprehension over the rows of
`df_brands`, followed by `.get(name, None)`: on duplicate names the
comprehension keeps the last row, hence the lookup searches the reversed
list. -/
def brand_name_to_id (df_brands : List Brand) (n : String) : Option Nat :=
  (df_brands.reverse.find? (fun b => b.name == n)).map (fun b => b.id)

/-- Embedding of the `df_view` filter chain (source lines 203-211): filter by
category and product type when selected, then resolve the selected brand name
to an id; when the lookup fails (`bid is None`) the brand filter is skipped. -/
def df_view (df_forms : List Formulation) (df_brands : List Brand)
    (selCat selPtype selBrand : Option String) : List Formulation :=
  let v1 := match selCat with
    | none => df_forms
    | some c => df_forms.filter (fun f => f.category == c)
  let v2 := match selPtype with
    | none => v1
    | some t => v1.filter (fun f => f.product_type == t)
  match selBrand with
  | none => v2
  | some bn =>
    match brand_name_to_id df_brands bn with
    | none => v2
    | some bid => v2.filter (fun f => f.brand_id == bid)

/-!
## Ingredient frequency pipeline (source lines 233-242)
-/

/-- Embedding of `df_fi.merge(df_forms, left_on="formulation_id",
right_on="id", how="left")`: each FI row is paired with every formulation
whose id matches; a row without a match is kept, paired with `none`
(pandas fills NaN). -/
def leftJoinForms : List FIRow → List Formulation → List (FIRow × Option Formulation)
  | [], _ => []
  | r :: rs, df_forms =>
    (match df_forms.filter (fun f => f.id == r.formulation_id) with
      | [] => [(r, none)]
      | ms => ms.map (fun f => (r, some f))) ++ leftJoinForms rs df_forms

/-- Comparison of a merged (possibly missing) column against an active filter:
no active filter accepts everything; an active filter compares by equality,
and a missing value (NaN) never equals the filter value. -/
def matchSel (sel : Option String) (v : Option String) : Bool :=
  match sel with
  | none => true
  | some c => v == some c

/-- Embedding of the two filter steps `fi = fi[fi["category"] == sel_cat_q]`
and `fi = fi[fi["product_type"] == sel_ptype_q]` applied to the merged frame. -/
def fiFiltered (df_fi : List FIRow) (df_forms : List Formulation)
    (selCat selPtype : Option String) : List (FIRow × Option Formulation) :=
  (leftJoinForms df_fi df_forms).filter (fun p =>
    matchSel selCat (p.2.map (fun f => f.category)) &&
    matchSel selPtype (p.2.map (fun f => f.product_type)))

/-- Embedding of `.agg(Count=("formulation_id", "nunique"))` for one group:
the number of distinct formulation ids among the rows of ingredient `i`. -/
def nuniqueForm (rows : List (FIRow × Option Formulation)) (i : Nat) : Nat :=
  (((rows.filter (fun p => p.1.ingredient_id == i)).map
      (fun p => p.1.formulation_id)).dedup).length

/-- Embedding of `groupby("ingredient_id")`: the distinct ingredient ids of
the filtered rows, in ascending order (pandas sorts group keys). -/
def groupKeys (rows : List (FIRow × Option Formulation)) : List Nat :=
  List.insertionSort (fun a b => a ≤ b)
    ((rows.map (fun p => p.1.ingredient_id)).dedup)

/-- Row of the displayed frequency table: the three ingredient metadata
columns brought in by the left merge with `df_ings` (`none` models NaN for an
unmatched ingredient id) and the distinct-formulation count. -/
structure FreqEntry where
  inci_name : Option String
  common_name : Option String
  function : Option String
  count : Nat
  deriving DecidableEq

/-- Embedding of `freq.merge(df_ings, left_on="ingredient_id", right_on="id",
how="left")` for one group row: every matching ingredient row produces an
output row, no match produces a single row with missing metadata. -/
def mergeIngMeta (df_ings : List Ingredient) (i c : Nat) : List FreqEntry :=
  match df_ings.filter (fun g => g.id == i) with
  | [] => [⟨none, none, none, c⟩]
  | ms => ms.map (fun g => ⟨some g.inci_name, some g.common_name, some g.function, c⟩)

/-- The frequency rows before the final sort: group the filtered merged rows
by ingredient id, count distinct formulation ids per group, and join with
ingredient metadata (source lines 239-241, before `sort_values`). -/
def freqEntries (df_fi : List FIRow) (df_forms : List Formulation)
    (df_ings : List Ingredient) (selCat selPtype : Option String) : List FreqEntry :=
  let rows := fiFiltered df_fi df_forms selCat selPtype
  ((groupKeys rows).map (fun i => mergeIngMeta df_ings i (nuniqueForm rows i))).flatten

/-- Tie-order on the INCI column used by
`sort_values(["Count", "inci_name"], ascending=[False, True])`: ascending
lexicographic order on the strings, with a missing name (NaN) sorted last. -/
def inciLe (a b : Option String) : Prop :=
  match a, b with
  | none, none => True
  | none, some _ => False
  | some _, none => True
  | some x, some y => x ≤ y

instance instDecInciLe : ∀ a b : Option String, Decidable (inciLe a b) := fun a b =>
  match a, b with
  | none, none => isTrue trivial
  | none, some _ => isFalse (fun h => h)
  | some _, none => isTrue trivial
  | some x, some y => inferInstanceAs (Decidable (x ≤ y))

/-- The row order of `sort_values(["Count", "inci_name"],
ascending=[False, True])`: count descending, INCI name ascending on ties. -/
def freqLe (a b : FreqEntry) : Prop :=
  b.count < a.count ∨ (a.count = b.count ∧ inciLe a.inci_name b.inci_name)

instance instDecFreqLe : DecidableRel freqLe := fun a b =>
  inferInstanceAs (Decidable (_ ∨ _ ∧ _))

/-- The full ingredient-frequency result (source lines 233-242). -/
def ingredientFrequency (df_fi : List FIRow) (df_forms : List Formulation)
    (df_ings : List Ingredient) (selCat selPtype : Option String) : List FreqEntry :=
  List.insertionSort freqLe (freqEntries df_fi df_forms df_ings selCat selPtype)

/-!
## Claim-side (spec-worded) frequency definitions and supporting lemmas
-/

/-- Claim-side restriction predicate, following the spec's words: an FI row
is kept when its parent formulation (looked up by id) matches the active
category and product-type filters; with no active filter everything matches
(in particular, with no active filter a row without a parent is kept, as the
left merge in the source keeps it too). -/
def passParent (df_forms : List Formulation) (selCat selPtype : Option String)
    (r : FIRow) : Bool :=
  matchSel selCat
    ((df_forms.find? (fun f => f.id == r.formulation_id)).map (fun f => f.category)) &&
  matchSel selPtype
    ((df_forms.find? (fun f => f.id == r.formulation_id)).map (fun f => f.product_type))

/-- Metadata of ingredient `i` (by unique id lookup) together with a count. -/
def specMeta (df_ings : List Ingredient) (i c : Nat) : FreqEntry :=
  match df_ings.find? (fun g => g.id == i) with
  | none => ⟨none, none, none, c⟩
  | some g => ⟨some g.inci_name, some g.common_name, some g.function, c⟩

/-- Claim-side frequency table, following the spec's words: restrict FI rows
to those whose parent matches the category/type filters, group by ingredient
id, count distinct formulation ids per group, and join ingredient metadata. -/
def specFreqEntries (df_fi : List FIRow) (df_forms : List Formulation)
    (df_ings : List Ingredient) (selCat selPtype : Option String) : List FreqEntry :=
  let passing := df_fi.filter (passParent df_forms selCat selPtype)
  ((passing.map (fun r => r.ingredient_id)).dedup).map (fun i =>
    specMeta df_ings i
      ((((passing.filter (fun r => r.ingredient_id == i)).map
          (fun r => r.formulation_id)).dedup).length))

/-!
## Mutation layer: add formulation (source lines 306-377)
-/

/-- Embedding of the next-id rule `1 if df.empty else int(max) + 1` used for
all four tables. -/
def nextId (ids : List Nat) : Nat :=
  if ids.isEmpty then 1 else ids.foldr max 0 + 1

/-- Embedding of `parts = [p.strip() for p in ln.split("|")]`. -/
def parseLine (ln : String) : List String :=
  (splitStr '|' ln).map stripStr

/-- Embedding of `ing_lines = [ln.strip() for ln in ing_text.splitlines() if
ln.strip()]` (line endings modelled as newline characters). -/
def ingLines (t : String) : List String :=
  ((splitStr '\n' t).map stripStr).filter (fun ln => !(ln == ""))

/-- The INCI field of an ingredient line (`parts[0]`). -/
def lineInci (ln : String) : String := (parseLine ln).getD 0 ""

/-- State threaded through the `for ln in ing_lines` loop: the local
ingredient view `df_ings`, the two id counters (`next_ing_id_start`,
`next_fi_id`), and the rows appended so far to the Ingredients and
Formulation_Ingredients sheets. -/
structure SubmissionState where
  ings : List Ingredient
  next_ing : Nat
  next_fi : Nat
  newIngs : List Ingredient
  fiRows : List FIRow
  deriving DecidableEq

/-- Embedding of one iteration of the ingredient-line loop (source lines
338-372): a line with fewer than 4 pipe fields is skipped (`continue`);
otherwise the INCI name is matched case-insensitively against the local
ingredient view, reusing the first match's id or appending a fresh
ingredient and updating the local view, and in both cases a
Formulation_Ingredients row is appended. -/
def processLine (fid : Nat) (st : SubmissionState) (ln : String) : SubmissionState :=
  let parts := parseLine ln
  if parts.length < 4 then st
  else
    let inci := parts.getD 0 ""
    let common := parts.getD 1 ""
    let func := parts.getD 2 ""
    let pct := parts.getD 3 ""
    let phase := parts.getD 4 ""
    let notes := parts.getD 5 ""
    match st.ings.find? (fun g => lowerStr g.inci_name == lowerStr inci) with
    | some g =>
      { st with
        fiRows := st.fiRows ++ [⟨st.next_fi, fid, g.id, pct, phase, notes⟩],
        next_fi := st.next_fi + 1 }
    | none =>
      { ings := st.ings ++ [⟨st.next_ing, inci, common, func, ""⟩],
        next_ing := st.next_ing + 1,
        next_fi := st.next_fi + 1,
        newIngs := st.newIngs ++ [⟨st.next_ing, inci, common, func, ""⟩],
        fiRows := st.fiRows ++ [⟨st.next_fi, fid, st.next_ing, pct, phase, notes⟩] }

/-- The whole ingredient-line loop. -/
def processIngLines (fid : Nat) : SubmissionState → List String → SubmissionState
  | st, [] => st
  | st, ln :: rest => processIngLines fid (processLine fid st ln) rest

/-- The lines the loop does not skip: at least 4 pipe-separated fields. -/
def validLines (lines : List String) : List String :=
  lines.filter (fun ln => decide (4 ≤ (parseLine ln).length))

/-- The four spreadsheet tables. -/
structure Tables where
  brands : List Brand
  forms : List Formulation
  ings : List Ingredient
  fi : List FIRow
  deriving DecidableEq

/-- The inputs of the add-formulation form. -/
structure Submission where
  f_name : String
  f_category : String
  f_ptype : String
  sel_brand : String
  new_brand_name : String
  f_notes : String
  ing_text : String
  deriving DecidableEq

/-- The rows a submission appends to each of the four sheets. -/
structure Writes where
  brandRows : List Brand
  formRows : List Formulation
  ingRows : List Ingredient
  fiRows : List FIRow
  deriving DecidableEq

/-- Trunk of the add-formulation handler once a brand id is resolved
(source lines 321-372): assign the formulation id, append the formulation,
then run the ingredient-line loop starting from fresh ingredient and FI id
counters and an ingredient view that sees any ingredient appended earlier in
the same submission. -/
def addFormulationWithBrand (t : Tables) (s : Submission) (bid : Nat)
    (nb : List Brand) : Except String Unit × Writes :=
  let fid := nextId (t.forms.map (fun f => f.id))
  let form : Formulation := ⟨fid, stripStr s.f_name, bid, stripStr s.f_category,
    stripStr s.f_ptype, stripStr s.f_notes⟩
  let st0 : SubmissionState := ⟨t.ings, nextId (t.ings.map (fun g => g.id)),
    nextId (t.fi.map (fun r => r.id)), [], []⟩
  let stf := processIngLines fid st0 (ingLines s.ing_text)
  (.ok (), ⟨nb, [form], stf.newIngs, stf.fiRows⟩)

/-- Embedding of the add-formulation submission handler (source lines
306-377): resolve or create the brand first; both error exits (empty
new-brand name after stripping, unknown existing brand) happen before any
append, so they carry empty writes. -/
def addFormulation (t : Tables) (s : Submission) : Except String Unit × Writes :=
  if s.sel_brand != "(new)" then
    match t.brands.find? (fun b => b.name == s.sel_brand) with
    | none => (.error "Failed to save: brand not found", ⟨[], [], [], []⟩)
    | some b => addFormulationWithBrand t s b.id []
  else if stripStr s.new_brand_name == "" then
    (.error "Please enter a new brand name.", ⟨[], [], [], []⟩)
  else
    addFormulationWithBrand
      { t with brands := t.brands ++
          [⟨nextId (t.brands.map (fun b => b.id)), stripStr s.new_brand_name⟩] }
      s (nextId (t.brands.map (fun b => b.id)))
      [⟨nextId (t.brands.map (fun b => b.id)), stripStr s.new_brand_name⟩]

/-- The four tables after appending a submission's writes. -/
def applyWrites (t : Tables) (w : Writes) : Tables :=
  ⟨t.brands ++ w.brandRows, t.forms ++ w.formRows,
    t.ings ++ w.ingRows, t.fi ++ w.fiRows⟩

/-!
## Mutation layer: bulk add ingredients (operative second copy, source
lines 470-519)
-/

/-- Embedding of the tokenization (source lines 473-478): normalize line
endings, split on newlines, split each line on commas, strip whitespace,
drop empty tokens, keeping first-appearance order. -/
def tokenize (raw : String) : List String :=
  ((((splitStr '\n' (replaceChar '\r' '\n' raw)).map
      (fun line => splitStr ',' line)).flatten).map stripStr).filter
    (fun n => !(n == ""))

/-- Order-preserving first-occurrence de-duplication
(`list(dict.fromkeys(tokens))`). -/
def pyDedup (seen : List String) : List String → List String
  | [] => []
  | x :: xs => if x ∈ seen then pyDedup seen xs else x :: pyDedup (seen ++ [x]) xs

/-- State of the bulk-add loop: the case-insensitive existing-name set (a
list with membership semantics), the next ingredient id, the appended rows,
and the `added` counter. -/
structure BulkState where
  existing : List String
  next_ing : Nat
  rows : List Ingredient
  added : Nat
  deriving DecidableEq

/-- One iteration of `for inci in tokens` (source lines 493-513): skip when
the lower-cased name is already present, otherwise append a row with the two
user-supplied defaults, extend the existing-set, and bump id and counter. -/
def bulkStep (dc dfv : String) (st : BulkState) (inci : String) : BulkState :=
  if lowerStr inci ∈ st.existing then st
  else
    { existing := st.existing ++ [lowerStr inci],
      next_ing := st.next_ing + 1,
      rows := st.rows ++ [⟨st.next_ing, inci, dc, dfv, ""⟩],
      added := st.added + 1 }

/-- The whole bulk-add loop. -/
def bulkLoop (dc dfv : String) : BulkState → List String → BulkState
  | st, [] => st
  | st, x :: xs => bulkLoop dc dfv (bulkStep dc dfv st x) xs

/-- Outcome of the bulk-add handler: appended rows, the reported count, and
whether the no-tokens warning was shown instead. -/
structure BulkResult where
  newRows : List Ingredient
  added : Nat
  noTokens : Bool
  deriving DecidableEq

/-- Embedding of the operative (second) bulk-add handler (source lines
470-519): tokenize; warn when no tokens; optionally de-duplicate; build the
case-insensitive existing-name set from the ingredient table; run the loop
from the next free ingredient id. -/
def bulkAdd (df_ings : List Ingredient) (raw : String) (dedup : Bool)
    (dc dfv : String) : BulkResult :=
  let tokens := tokenize raw
  if tokens.isEmpty then ⟨[], 0, true⟩
  else
    let tokens := if dedup then pyDedup [] tokens else tokens
    let st0 : BulkState := ⟨df_ings.map (fun g => lowerStr g.inci_name),
      nextId (df_ings.map (fun g => g.id)), [], 0⟩
    let stf := bulkLoop dc dfv st0 tokens
    ⟨stf.rows, stf.added, false⟩

/-- Example tables for the spec's distinct-count test: ingredient 1 appears
twice in formulation 1 and once in formulation 2. -/
def exForms : List Formulation :=
  [⟨1, "F1", 1, "Bodycare", "Body Wash", ""⟩, ⟨2, "F2", 1, "Bodycare", "Body Wash", ""⟩]

def exIngs : List Ingredient := [⟨1, "Aqua", "Water", "Solvent", ""⟩]

def exFi : List FIRow :=
  [⟨1, 1, 1, "60", "A", ""⟩, ⟨2, 1, 1, "5", "A", ""⟩, ⟨3, 2, 1, "70", "A", ""⟩]

/-- Example loop state for C4: one existing ingredient ("Aqua"), next
ingredient id 2, next FI id 1. -/
def exSubState : SubmissionState :=
  ⟨[⟨1, "Aqua", "Water", "Solvent", ""⟩], 2, 1, [], []⟩

/-- Example ingredient lines: a case-variant of an existing name, then a new
name. -/
def exLines : List String :=
  ["AQUA | Water | Solvent | 60", "Glycerin | Glycerin | Humectant | 3"]

/-- Example submission for C9: "new brand" selected, name blank after
stripping. -/
def exSubEmptyBrand : Submission :=
  ⟨"BW Test", "Bodycare", "Body Wash", "(new)", "   ", "", "Aqua | Water | Solvent | 60"⟩

/-- Example empty tables. -/
def exTables : Tables := ⟨[], [], [], []⟩

/-!
## Theorems
-/

/-- C1: for every candidate system and preference combination, `score_system`
equals the sum of the four independent bonuses (+2 sulfate-free wanted and
tagged, +2 mild wanted and tagged, +1 high foam wanted and tagged, +1 mild
not wanted and tagged "cost"); a system tagged mild/green/sulfate‑free scores
4 under preferences (sulfate-free, mild, no high foam), and one tagged
cost‑effective/medium-mildness scores 0 under the same preferences.  The tag
strings are the source's own (U+2011 hyphen), used consistently by both the
catalog and the scorer. -/
theorem C1_score_formula :
    (∀ (p : Prefs) (s : SurfSystem),
      score_system p s =
        (if p.wantSulfateFree ∧ "sulfate‑free" ∈ s.tags then 2 else 0) +
        (if p.wantMild ∧ "mild" ∈ s.tags then 2 else 0) +
        (if p.wantHighFoam ∧ "high foam" ∈ s.tags then 1 else 0) +
        (if ¬ p.wantMild ∧ "cost" ∈ s.tags then 1 else 0)) ∧
    score_system ⟨true, true, false⟩ ⟨"A", ["mild", "green", "sulfate‑free"]⟩ = 4 ∧
    score_system ⟨true, true, false⟩ ⟨"B", ["cost‑effective", "medium mildness"]⟩ = 0 := by
  refine ⟨fun p s => ?_, by decide, by decide⟩
  simp only [score_system]
  split_ifs <;> omega

/-- C2: for every combination of the three preference booleans, the ranking
of the body-wash candidates is a permutation of the catalog (every candidate
appears, none filtered out), is sorted by score descending, ties keep the
catalog's original relative order (strictly increasing catalog index on equal
scores), and recomputing yields the identical order. -/
theorem C2_ranking_stable :
    ∀ ws wm wf : Bool,
      (ranked ⟨ws, wm, wf⟩).Perm bodyWashSystems ∧
      List.Pairwise (fun a b =>
        score_system ⟨ws, wm, wf⟩ b ≤ score_system ⟨ws, wm, wf⟩ a ∧
        (score_system ⟨ws, wm, wf⟩ a = score_system ⟨ws, wm, wf⟩ b →
          bodyWashSystems.indexOf a < bodyWashSystems.indexOf b))
        (ranked ⟨ws, wm, wf⟩) ∧
      ranked ⟨ws, wm, wf⟩ = ranked ⟨ws, wm, wf⟩ := by
  intro ws wm wf
  cases ws <;> cases wm <;> cases wf <;> decide

/-- Filtering a list on an injective key (no duplicate keys) yields at most
the row found by `find?`. -/
theorem filter_key_eq_find?_toList {α : Type} (key : α → Nat) (v : Nat) :
    ∀ l : List α, (l.map key).Nodup →
      l.filter (fun a => key a == v) = (l.find? (fun a => key a == v)).toList := by
  intro l
  induction l with
  | nil => intro _; rfl
  | cons a l ih =>
    intro h
    rw [List.map_cons, List.nodup_cons] at h
    by_cases hv : key a = v
    · have hfind : List.find? (fun a => key a == v) (a :: l) = some a := by
        have hba : (key a == v) = true := by simp [hv]
        rw [List.find?_cons, hba]
      have hnil : l.filter (fun a => key a == v) = [] := by
        rw [List.filter_eq_nil_iff]
        intro b hb
        simp only [beq_iff_eq]
        intro hbv
        exact h.1 (by rw [hv, ← hbv]; exact List.mem_map_of_mem key hb)
      rw [List.filter_cons_of_pos (by simp [hv]), hfind, hnil]
      rfl
    · have hfind : List.find? (fun a => key a == v) (a :: l) =
          List.find? (fun a => key a == v) l := by
        have hba : (key a == v) = false := by simp [hv]
        rw [List.find?_cons, hba]
      rw [List.filter_cons_of_neg (by simp [hv]), hfind]
      exact ih h.2

/-- With unique formulation ids the left merge pairs each FI row with exactly
its looked-up parent. -/
theorem leftJoinForms_eq_map (df_forms : List Formulation)
    (h : (df_forms.map (fun f => f.id)).Nodup) :
    ∀ df_fi : List FIRow,
      leftJoinForms df_fi df_forms =
        df_fi.map (fun r => (r, df_forms.find? (fun f => f.id == r.formulation_id))) := by
  intro df_fi
  induction df_fi with
  | nil => rfl
  | cons r rs ih =>
    show (match df_forms.filter (fun f => f.id == r.formulation_id) with
          | [] => [(r, none)]
          | ms => ms.map (fun f => (r, some f))) ++ leftJoinForms rs df_forms = _
    rw [filter_key_eq_find?_toList (fun f => f.id) r.formulation_id df_forms h, ih]
    rcases hfind : df_forms.find? (fun f => f.id == r.formulation_id) with _ | f <;>
      simp [hfind, Option.toList]

/-- With unique formulation ids, merging then filtering equals filtering the
FI rows by the parent-lookup predicate and re-attaching the parent. -/
theorem fiFiltered_eq (df_fi : List FIRow) (df_forms : List Formulation)
    (selCat selPtype : Option String)
    (h : (df_forms.map (fun f => f.id)).Nodup) :
    fiFiltered df_fi df_forms selCat selPtype =
      (df_fi.filter (passParent df_forms selCat selPtype)).map
        (fun r => (r, df_forms.find? (fun f => f.id == r.formulation_id))) := by
  unfold fiFiltered
  rw [leftJoinForms_eq_map df_forms h, List.filter_map]
  rfl

/-- The per-group distinct count computed on the merged rows equals the one
computed directly on the restricted FI rows. -/
theorem nuniqueForm_eq (df_fi : List FIRow) (df_forms : List Formulation)
    (selCat selPtype : Option String) (i : Nat)
    (h : (df_forms.map (fun f => f.id)).Nodup) :
    nuniqueForm (fiFiltered df_fi df_forms selCat selPtype) i =
      ((((df_fi.filter (passParent df_forms selCat selPtype)).filter
          (fun r => r.ingredient_id == i)).map
            (fun r => r.formulation_id)).dedup).length := by
  rw [fiFiltered_eq df_fi df_forms selCat selPtype h]
  unfold nuniqueForm
  rw [List.filter_map, List.map_map]
  rfl

/-- With unique ingredient ids the metadata merge of one group row is a
single row. -/
theorem mergeIngMeta_eq (df_ings : List Ingredient) (i c : Nat)
    (hg : (df_ings.map (fun g => g.id)).Nodup) :
    mergeIngMeta df_ings i c = [specMeta df_ings i c] := by
  unfold mergeIngMeta specMeta
  rw [filter_key_eq_find?_toList (fun g => g.id) i df_ings hg]
  cases df_ings.find? (fun g => g.id == i) <;> simp [Option.toList]

theorem flatten_singleton_map {α β : Type} (g : α → β) :
    ∀ l : List α, (l.map (fun a => [g a])).flatten = l.map g := by
  intro l
  induction l with
  | nil => rfl
  | cons a l ih => simp [ih]

/-- Before the final sort, the pipeline's rows are a permutation of the
claim-side rows (the pipeline orders groups by ascending ingredient id, the
claim-side list by first appearance). -/
theorem freqEntries_perm_spec (df_fi : List FIRow) (df_forms : List Formulation)
    (df_ings : List Ingredient) (selCat selPtype : Option String)
    (hf : (df_forms.map (fun f => f.id)).Nodup)
    (hg : (df_ings.map (fun g => g.id)).Nodup) :
    (freqEntries df_fi df_forms df_ings selCat selPtype).Perm
      (specFreqEntries df_fi df_forms df_ings selCat selPtype) := by
  have h1 : ∀ i c, mergeIngMeta df_ings i c = [specMeta df_ings i c] :=
    fun i c => mergeIngMeta_eq df_ings i c hg
  simp only [freqEntries, specFreqEntries, h1]
  rw [flatten_singleton_map]
  have hfun :
      (fun i => specMeta df_ings i
          (nuniqueForm (fiFiltered df_fi df_forms selCat selPtype) i)) =
      (fun i => specMeta df_ings i
          (((((df_fi.filter (passParent df_forms selCat selPtype)).filter
              (fun r => r.ingredient_id == i)).map
                (fun r => r.formulation_id)).dedup).length)) :=
    funext (fun i => by rw [nuniqueForm_eq df_fi df_forms selCat selPtype i hf])
  rw [hfun]
  refine List.Perm.map _ ?_
  have hkeys :
      ((fiFiltered df_fi df_forms selCat selPtype).map
          (fun p => p.1.ingredient_id)).dedup =
      ((df_fi.filter (passParent df_forms selCat selPtype)).map
          (fun r => r.ingredient_id)).dedup := by
    rw [fiFiltered_eq df_fi df_forms selCat selPtype hf, List.map_map]
    rfl
  unfold groupKeys
  rw [hkeys]
  exact List.perm_insertionSort _ _

theorem inciLe_totality : ∀ a b : Option String, inciLe a b ∨ inciLe b a := by
  intro a b
  cases a <;> cases b <;> simp only [inciLe] <;> try tauto
  exact le_total _ _

theorem inciLe_transitivity :
    ∀ a b c : Option String, inciLe a b → inciLe b c → inciLe a c := by
  intro a b c hab hbc
  cases a <;> cases b <;> cases c <;> simp only [inciLe] at * <;> try tauto
  exact le_trans hab hbc

theorem freqLe_totality : ∀ a b : FreqEntry, freqLe a b ∨ freqLe b a := by
  intro a b
  rcases Nat.lt_trichotomy a.count b.count with h | h | h
  · exact Or.inr (Or.inl h)
  · rcases inciLe_totality a.inci_name b.inci_name with hi | hi
    · exact Or.inl (Or.inr ⟨h, hi⟩)
    · exact Or.inr (Or.inr ⟨h.symm, hi⟩)
  · exact Or.inl (Or.inl h)

theorem freqLe_transitivity :
    ∀ a b c : FreqEntry, freqLe a b → freqLe b c → freqLe a c := by
  intro a b c hab hbc
  rcases hab with h1 | ⟨h1, h1'⟩ <;> rcases hbc with h2 | ⟨h2, h2'⟩
  · exact Or.inl (by omega)
  · exact Or.inl (by omega)
  · exact Or.inl (by omega)
  · exact Or.inr ⟨h1.trans h2, inciLe_transitivity _ _ _ h1' h2'⟩

/-- C3: with unique formulation and ingredient ids, the ingredient-frequency
result (a) consists exactly of the rows obtained by restricting FI rows to
those whose parent formulation matches the active category/product-type
filters (the brand selection never enters the computation), grouping by
ingredient id and counting distinct formulation ids per group with joined
metadata, and (b) is sorted by count descending with ties ordered by INCI
name ascending; moreover on the example tables an ingredient listed twice in
one formulation and once in another gets count 2, not 3. -/
theorem C3_ingredient_frequency (df_fi : List FIRow) (df_forms : List Formulation)
    (df_ings : List Ingredient) (selCat selPtype : Option String)
    (hf : (df_forms.map (fun f => f.id)).Nodup)
    (hg : (df_ings.map (fun g => g.id)).Nodup) :
    (ingredientFrequency df_fi df_forms df_ings selCat selPtype).Perm
      (specFreqEntries df_fi df_forms df_ings selCat selPtype) ∧
    List.Pairwise freqLe (ingredientFrequency df_fi df_forms df_ings selCat selPtype) ∧
    (ingredientFrequency exFi exForms exIngs none none).map (fun e => e.count) = [2] := by
  refine ⟨?_, ?_, by decide⟩
  · exact (List.perm_insertionSort freqLe _).trans
      (freqEntries_perm_spec df_fi df_forms df_ings selCat selPtype hf hg)
  · exact @List.sorted_insertionSort _ freqLe _ ⟨freqLe_totality⟩ ⟨freqLe_transitivity⟩ _

/-- Witness for C3 at the example tables. -/
theorem C3_witness :
    ((exForms.map (fun f => f.id)).Nodup ∧ (exIngs.map (fun g => g.id)).Nodup) ∧
    ((ingredientFrequency exFi exForms exIngs none none).Perm
        (specFreqEntries exFi exForms exIngs none none) ∧
      List.Pairwise freqLe (ingredientFrequency exFi exForms exIngs none none) ∧
      (ingredientFrequency exFi exForms exIngs none none).map (fun e => e.count) = [2]) :=
  ⟨⟨by decide, by decide⟩,
    C3_ingredient_frequency exFi exForms exIngs none none (by decide) (by decide)⟩

/-- C8: filtering by a brand name that no Brand row carries leaves the
formulation view exactly as filtered by category and product type alone —
the brand criterion is a no-op, not an emptying filter. -/
theorem C8_absent_brand_noop (df_forms : List Formulation) (df_brands : List Brand)
    (selCat selPtype : Option String) (bn : String)
    (h : ∀ b ∈ df_brands, b.name ≠ bn) :
    df_view df_forms df_brands selCat selPtype (some bn) =
      df_view df_forms df_brands selCat selPtype none := by
  have hnone : brand_name_to_id df_brands bn = none := by
    unfold brand_name_to_id
    rw [List.find?_eq_none.mpr]
    · rfl
    · intro b hb
      simp only [beq_iff_eq]
      exact h b (List.mem_reverse.mp hb)
  simp only [df_view, hnone]

/-- Witness for C8: brand "Nope" is absent from a one-brand table. -/
theorem C8_witness :
    (∀ b ∈ [Brand.mk 1 "Acme"], b.name ≠ "Nope") ∧
    df_view exForms [Brand.mk 1 "Acme"] (some "Bodycare") none (some "Nope") =
      df_view exForms [Brand.mk 1 "Acme"] (some "Bodycare") none none :=
  ⟨by decide,
    C8_absent_brand_noop exForms [Brand.mk 1 "Acme"] (some "Bodycare") none "Nope" (by decide)⟩

/-!
## Lemmas about the ingredient-line loop
-/

theorem processIngLines_cons (fid : Nat) (st : SubmissionState) (ln : String)
    (rest : List String) :
    processIngLines fid st (ln :: rest) =
      processIngLines fid (processLine fid st ln) rest := rfl

theorem processLine_skip (fid : Nat) (st : SubmissionState) (ln : String)
    (h : (parseLine ln).length < 4) : processLine fid st ln = st := by
  simp only [processLine]
  rw [if_pos h]

theorem processLine_reuse (fid : Nat) (st : SubmissionState) (ln : String)
    (g : Ingredient) (h4 : ¬ (parseLine ln).length < 4)
    (hfind : st.ings.find?
        (fun x => lowerStr x.inci_name == lowerStr (lineInci ln)) = some g) :
    processLine fid st ln =
      { st with
        fiRows := st.fiRows ++ [⟨st.next_fi, fid, g.id, (parseLine ln).getD 3 "",
          (parseLine ln).getD 4 "", (parseLine ln).getD 5 ""⟩],
        next_fi := st.next_fi + 1 } := by
  simp only [lineInci] at hfind
  simp only [processLine]
  rw [if_neg h4, hfind]

theorem processLine_create (fid : Nat) (st : SubmissionState) (ln : String)
    (h4 : ¬ (parseLine ln).length < 4)
    (hfind : st.ings.find?
        (fun x => lowerStr x.inci_name == lowerStr (lineInci ln)) = none) :
    processLine fid st ln =
      { ings := st.ings ++ [⟨st.next_ing, lineInci ln, (parseLine ln).getD 1 "",
          (parseLine ln).getD 2 "", ""⟩],
        next_ing := st.next_ing + 1,
        next_fi := st.next_fi + 1,
        newIngs := st.newIngs ++ [⟨st.next_ing, lineInci ln, (parseLine ln).getD 1 "",
          (parseLine ln).getD 2 "", ""⟩],
        fiRows := st.fiRows ++ [⟨st.next_fi, fid, st.next_ing, (parseLine ln).getD 3 "",
          (parseLine ln).getD 4 "", (parseLine ln).getD 5 ""⟩] } := by
  simp only [lineInci] at hfind
  simp only [processLine, lineInci]
  rw [if_neg h4, hfind]

theorem validLines_cons_skip (ln : String) (lines : List String)
    (h : (parseLine ln).length < 4) :
    validLines (ln :: lines) = validLines lines := by
  simp only [validLines]
  rw [List.filter_cons_of_neg (by simp; omega)]

theorem validLines_cons_keep (ln : String) (lines : List String)
    (h : ¬ (parseLine ln).length < 4) :
    validLines (ln :: lines) = ln :: validLines lines := by
  simp only [validLines]
  rw [List.filter_cons_of_pos (by simp; omega)]

/-- Combined invariant of the ingredient-line loop: the local view and the
appended-row lists grow by the same created rows; created ingredient ids and
emitted FI ids are consecutive from the initial counters; one FI row is
emitted per valid line; each emitted FI row carries the id found for its
line's INCI name in the final local view; and case-insensitive uniqueness of
INCI names is preserved. -/
theorem processIngLines_spec (fid : Nat) :
    ∀ (lines : List String) (st : SubmissionState),
      ∃ created newFis,
        (processIngLines fid st lines).ings = st.ings ++ created ∧
        (processIngLines fid st lines).newIngs = st.newIngs ++ created ∧
        (processIngLines fid st lines).fiRows = st.fiRows ++ newFis ∧
        created.map (fun g => g.id) = List.range' st.next_ing created.length ∧
        (processIngLines fid st lines).next_ing = st.next_ing + created.length ∧
        newFis.map (fun r => r.id) = List.range' st.next_fi newFis.length ∧
        (processIngLines fid st lines).next_fi = st.next_fi + newFis.length ∧
        newFis.length = (validLines lines).length ∧
        (∀ pr ∈ newFis.zip (validLines lines), ∃ g,
          (processIngLines fid st lines).ings.find?
              (fun x => lowerStr x.inci_name == lowerStr (lineInci pr.2)) = some g ∧
          pr.1.ingredient_id = g.id) ∧
        ((st.ings.map (fun g => lowerStr g.inci_name)).Nodup →
          ((st.ings ++ created).map (fun g => lowerStr g.inci_name)).Nodup) := by
  intro lines
  induction lines with
  | nil =>
    intro st
    refine ⟨[], [], ?_, ?_, ?_, ?_, ?_, ?_, ?_, ?_, ?_, ?_⟩ <;>
      simp [processIngLines, validLines]
  | cons ln rest ih =>
    intro st
    rw [processIngLines_cons]
    by_cases h4 : (parseLine ln).length < 4
    · rw [processLine_skip fid st ln h4, validLines_cons_skip ln rest h4]
      exact ih st
    · cases hfind : st.ings.find?
          (fun x => lowerStr x.inci_name == lowerStr (lineInci ln)) with
      | some g =>
        rw [processLine_reuse fid st ln g h4 hfind, validLines_cons_keep ln rest h4]
        obtain ⟨created, newFis, h1, h2, h3, hc4, h5, h6, h7, h8, h9, h10⟩ :=
          ih { st with
            fiRows := st.fiRows ++ [⟨st.next_fi, fid, g.id, (parseLine ln).getD 3 "",
              (parseLine ln).getD 4 "", (parseLine ln).getD 5 ""⟩],
            next_fi := st.next_fi + 1 }
        refine ⟨created,
          ⟨st.next_fi, fid, g.id, (parseLine ln).getD 3 "", (parseLine ln).getD 4 "",
            (parseLine ln).getD 5 ""⟩ :: newFis,
          h1, h2, ?_, hc4, h5, ?_, ?_, ?_, ?_, h10⟩
        · rw [h3]
          simp
        · show _ :: List.map (fun r => r.id) newFis =
              st.next_fi :: List.range' (st.next_fi + 1) newFis.length
          rw [h6]
        · rw [h7]
          show st.next_fi + 1 + newFis.length = st.next_fi + (newFis.length + 1)
          omega
        · simp [h8]
        · intro pr hpr
          rw [List.zip_cons_cons] at hpr
          rcases List.mem_cons.mp hpr with hh | hh
          · subst hh
            refine ⟨g, ?_, rfl⟩
            rw [h1, List.find?_append, hfind]
            rfl
          · exact h9 pr hh
      | none =>
        rw [processLine_create fid st ln h4 hfind, validLines_cons_keep ln rest h4]
        obtain ⟨created, newFis, h1, h2, h3, hc4, h5, h6, h7, h8, h9, h10⟩ :=
          ih { ings := st.ings ++ [⟨st.next_ing, lineInci ln, (parseLine ln).getD 1 "",
                  (parseLine ln).getD 2 "", ""⟩],
               next_ing := st.next_ing + 1,
               next_fi := st.next_fi + 1,
               newIngs := st.newIngs ++ [⟨st.next_ing, lineInci ln, (parseLine ln).getD 1 "",
                  (parseLine ln).getD 2 "", ""⟩],
               fiRows := st.fiRows ++ [⟨st.next_fi, fid, st.next_ing, (parseLine ln).getD 3 "",
                  (parseLine ln).getD 4 "", (parseLine ln).getD 5 ""⟩] }
        refine ⟨⟨st.next_ing, lineInci ln, (parseLine ln).getD 1 "",
            (parseLine ln).getD 2 "", ""⟩ :: created,
          ⟨st.next_fi, fid, st.next_ing, (parseLine ln).getD 3 "", (parseLine ln).getD 4 "",
            (parseLine ln).getD 5 ""⟩ :: newFis,
          ?_, ?_, ?_, ?_, ?_, ?_, ?_, ?_, ?_, ?_⟩
        · rw [h1]
          simp
        · rw [h2]
          simp
        · rw [h3]
          simp
        · show _ :: List.map (fun g => g.id) created =
              st.next_ing :: List.range' (st.next_ing + 1) created.length
          rw [hc4]
        · rw [h5]
          show st.next_ing + 1 + created.length = st.next_ing + (created.length + 1)
          omega
        · show _ :: List.map (fun r => r.id) newFis =
              st.next_fi :: List.range' (st.next_fi + 1) newFis.length
          rw [h6]
        · rw [h7]
          show st.next_fi + 1 + newFis.length = st.next_fi + (newFis.length + 1)
          omega
        · simp [h8]
        · intro pr hpr
          rw [List.zip_cons_cons] at hpr
          rcases List.mem_cons.mp hpr with hh | hh
          · subst hh
            refine ⟨⟨st.next_ing, lineInci ln, (parseLine ln).getD 1 "",
              (parseLine ln).getD 2 "", ""⟩, ?_, rfl⟩
            rw [h1, List.find?_append, List.find?_append, hfind]
            simp
          · exact h9 pr hh
        · intro hnodup
          have hnotin : lowerStr (lineInci ln) ∉
              st.ings.map (fun g => lowerStr g.inci_name) := by
            intro hmem
            obtain ⟨x, hx, hlx⟩ := List.mem_map.mp hmem
            exact absurd
              (show (lowerStr x.inci_name == lowerStr (lineInci ln)) = true by simp [hlx])
              (List.find?_eq_none.mp hfind x hx)
          have hnodup' : (((st.ings ++ [(⟨st.next_ing, lineInci ln, (parseLine ln).getD 1 "",
              (parseLine ln).getD 2 "", ""⟩ : Ingredient)]).map
                (fun g => lowerStr g.inci_name))).Nodup := by
            rw [List.map_append, List.nodup_append]
            refine ⟨hnodup, by simp, ?_⟩
            intro a ha hmem
            simp only [List.map_cons, List.map_nil, List.mem_singleton] at hmem
            rw [hmem] at ha
            exact hnotin ha
          have hres := h10 hnodup'
          rw [show st.ings ++ ((⟨st.next_ing, lineInci ln, (parseLine ln).getD 1 "",
              (parseLine ln).getD 2 "", ""⟩ : Ingredient) :: created) =
            (st.ings ++ [(⟨st.next_ing, lineInci ln, (parseLine ln).getD 1 "",
              (parseLine ln).getD 2 "", ""⟩ : Ingredient)]) ++ created by simp]
          exact hres

/-- The loop ignores skipped lines entirely: running it on the raw line list
equals running it on the valid lines only. -/
theorem processIngLines_validLines (fid : Nat) :
    ∀ (lines : List String) (st : SubmissionState),
      processIngLines fid st lines = processIngLines fid st (validLines lines) := by
  intro lines
  induction lines with
  | nil => intro st; rfl
  | cons ln rest ih =>
    intro st
    by_cases h4 : (parseLine ln).length < 4
    · rw [processIngLines_cons, processLine_skip fid st ln h4,
        validLines_cons_skip ln rest h4]
      exact ih st
    · rw [processIngLines_cons, validLines_cons_keep ln rest h4, processIngLines_cons]
      exact ih (processLine fid st ln)

/-!
## Lemmas about id assignment
-/

theorem le_foldr_max : ∀ (ids : List Nat) (i : Nat), i ∈ ids → i ≤ ids.foldr max 0 := by
  intro ids
  induction ids with
  | nil => intro i hi; cases hi
  | cons a l ih =>
    intro i hi
    rcases List.mem_cons.mp hi with h | h
    · subst h
      exact le_max_left _ _
    · exact le_trans (ih i h) (le_max_right _ _)

theorem mem_lt_nextId : ∀ (ids : List Nat) (i : Nat), i ∈ ids → i < nextId ids := by
  intro ids i hi
  cases ids with
  | nil => cases hi
  | cons a l =>
    have h := le_foldr_max (a :: l) i hi
    show i < (a :: l).foldr max 0 + 1
    omega

theorem nodup_append_range' (orig : List Nat) (m : Nat) (h : orig.Nodup)
    (hlt : ∀ i ∈ orig, i < nextId orig) :
    (orig ++ List.range' (nextId orig) m).Nodup := by
  rw [List.nodup_append]
  refine ⟨h, List.nodup_range' _ _, ?_⟩
  intro i hi hmem
  rw [List.mem_range'_1] at hmem
  have := hlt i hi
  omega

/-- Appending rows whose keys are the next consecutive fresh ids keeps the
key column duplicate-free. -/
theorem nodup_ids_append {α : Type} (key : α → Nat) (l l2 : List α)
    (h : (l.map key).Nodup)
    (h2 : l2.map key = List.range' (nextId (l.map key)) l2.length) :
    ((l ++ l2).map key).Nodup := by
  rw [List.map_append, h2, ← List.length_map l2 key, h2, List.length_range']
  exact nodup_append_range' (l.map key) l2.length h (fun i hi => mem_lt_nextId _ i hi)

/-- The writes of the post-brand-resolution trunk: the given brand rows, one
formulation row with the next formulation id, and ingredient and FI rows
with consecutive fresh ids. -/
theorem addFormulationWithBrand_spec (t : Tables) (s : Submission) (bid : Nat)
    (nb : List Brand) :
    ∃ created newFis,
      (addFormulationWithBrand t s bid nb).2.brandRows = nb ∧
      (addFormulationWithBrand t s bid nb).2.formRows =
        [⟨nextId (t.forms.map (fun f => f.id)), stripStr s.f_name, bid,
          stripStr s.f_category, stripStr s.f_ptype, stripStr s.f_notes⟩] ∧
      (addFormulationWithBrand t s bid nb).2.ingRows = created ∧
      created.map (fun g => g.id) =
        List.range' (nextId (t.ings.map (fun g => g.id))) created.length ∧
      (addFormulationWithBrand t s bid nb).2.fiRows = newFis ∧
      newFis.map (fun r => r.id) =
        List.range' (nextId (t.fi.map (fun r => r.id))) newFis.length := by
  obtain ⟨created, newFis, h1, h2, h3, hc4, h5, h6, h7, h8, h9, h10⟩ :=
    processIngLines_spec (nextId (t.forms.map (fun f => f.id))) (ingLines s.ing_text)
      ⟨t.ings, nextId (t.ings.map (fun g => g.id)), nextId (t.fi.map (fun r => r.id)), [], []⟩
  exact ⟨created, newFis, rfl, rfl, h2, hc4, h3, h6⟩

/-- The three non-brand tables keep duplicate-free ids across the writes of
the post-brand-resolution trunk. -/
theorem withBrand_tables_nodup (t : Tables) (s : Submission) (bid : Nat)
    (nb : List Brand)
    (hf : (t.forms.map (fun f => f.id)).Nodup)
    (hg : (t.ings.map (fun g => g.id)).Nodup)
    (hr : (t.fi.map (fun r => r.id)).Nodup) :
    ((t.forms ++ (addFormulationWithBrand t s bid nb).2.formRows).map
      (fun f => f.id)).Nodup ∧
    ((t.ings ++ (addFormulationWithBrand t s bid nb).2.ingRows).map
      (fun g => g.id)).Nodup ∧
    ((t.fi ++ (addFormulationWithBrand t s bid nb).2.fiRows).map
      (fun r => r.id)).Nodup := by
  obtain ⟨created, newFis, hw1, hw2, hw3, hw4, hw5, hw6⟩ :=
    addFormulationWithBrand_spec t s bid nb
  refine ⟨?_, ?_, ?_⟩
  · rw [hw2]
    exact nodup_ids_append (fun f : Formulation => f.id) t.forms
      [⟨nextId (t.forms.map (fun f : Formulation => f.id)), stripStr s.f_name, bid,
        stripStr s.f_category, stripStr s.f_ptype, stripStr s.f_notes⟩] hf rfl
  · rw [hw3]
    exact nodup_ids_append (fun g => g.id) t.ings created hg hw4
  · rw [hw5]
    exact nodup_ids_append (fun r => r.id) t.fi newFis hr hw6

/-!
## Lemmas about the bulk-add loop
-/

theorem bulkLoop_cons (dc dfv : String) (st : BulkState) (x : String)
    (xs : List String) :
    bulkLoop dc dfv st (x :: xs) = bulkLoop dc dfv (bulkStep dc dfv st x) xs := rfl

theorem bulkStep_mem (dc dfv : String) (st : BulkState) (x : String)
    (h : lowerStr x ∈ st.existing) : bulkStep dc dfv st x = st := by
  unfold bulkStep
  rw [if_pos h]

theorem bulkStep_new (dc dfv : String) (st : BulkState) (x : String)
    (h : lowerStr x ∉ st.existing) :
    bulkStep dc dfv st x =
      { existing := st.existing ++ [lowerStr x],
        next_ing := st.next_ing + 1,
        rows := st.rows ++ [⟨st.next_ing, x, dc, dfv, ""⟩],
        added := st.added + 1 } := by
  unfold bulkStep
  rw [if_neg h]

/-- The bulk loop only appends rows, with consecutive fresh ids, and its
counter counts exactly the appended rows. -/
theorem bulkLoop_spec (dc dfv : String) :
    ∀ (tokens : List String) (st : BulkState),
      ∃ rows,
        (bulkLoop dc dfv st tokens).rows = st.rows ++ rows ∧
        rows.map (fun g => g.id) = List.range' st.next_ing rows.length ∧
        (bulkLoop dc dfv st tokens).next_ing = st.next_ing + rows.length ∧
        (bulkLoop dc dfv st tokens).added = st.added + rows.length := by
  intro tokens
  induction tokens with
  | nil =>
    intro st
    exact ⟨[], by simp [bulkLoop], by simp, by simp [bulkLoop], by simp [bulkLoop]⟩
  | cons x xs ih =>
    intro st
    rw [bulkLoop_cons]
    by_cases hx : lowerStr x ∈ st.existing
    · rw [bulkStep_mem dc dfv st x hx]
      exact ih st
    · rw [bulkStep_new dc dfv st x hx]
      obtain ⟨rows, h1, h2, h3, h4⟩ :=
        ih { existing := st.existing ++ [lowerStr x],
             next_ing := st.next_ing + 1,
             rows := st.rows ++ [⟨st.next_ing, x, dc, dfv, ""⟩],
             added := st.added + 1 }
      refine ⟨⟨st.next_ing, x, dc, dfv, ""⟩ :: rows, ?_, ?_, ?_, ?_⟩
      · rw [h1]
        simp
      · show _ :: List.map (fun g => g.id) rows =
            st.next_ing :: List.range' (st.next_ing + 1) rows.length
        rw [h2]
      · rw [h3]
        show st.next_ing + 1 + rows.length = st.next_ing + (rows.length + 1)
        omega
      · rw [h4]
        show st.added + 1 + rows.length = st.added + (rows.length + 1)
        omega

/-- The reported bulk-add count always equals the number of appended rows. -/
theorem bulkAdd_added_eq_length (df_ings : List Ingredient) (raw : String) (d : Bool)
    (dc dfv : String) :
    (bulkAdd df_ings raw d dc dfv).added = (bulkAdd df_ings raw d dc dfv).newRows.length := by
  by_cases he : (tokenize raw).isEmpty = true
  · have heq : bulkAdd df_ings raw d dc dfv = ⟨[], 0, true⟩ := by
      simp only [bulkAdd]
      rw [if_pos he]
    rw [heq]
    rfl
  · have heq : bulkAdd df_ings raw d dc dfv =
        ⟨(bulkLoop dc dfv ⟨df_ings.map (fun g => lowerStr g.inci_name),
            nextId (df_ings.map (fun g => g.id)), [], 0⟩
            (if d then pyDedup [] (tokenize raw) else tokenize raw)).rows,
          (bulkLoop dc dfv ⟨df_ings.map (fun g => lowerStr g.inci_name),
            nextId (df_ings.map (fun g => g.id)), [], 0⟩
            (if d then pyDedup [] (tokenize raw) else tokenize raw)).added, false⟩ := by
      simp only [bulkAdd]
      rw [if_neg he]
    rw [heq]
    obtain ⟨rows, h1, h2, h3, h4⟩ := bulkLoop_spec dc dfv
      (if d then pyDedup [] (tokenize raw) else tokenize raw)
      ⟨df_ings.map (fun g => lowerStr g.inci_name),
        nextId (df_ings.map (fun g => g.id)), [], 0⟩
    show (bulkLoop dc dfv _ _).added = (bulkLoop dc dfv _ _).rows.length
    rw [h4, h1]
    simp

/-- Appending a bulk-add's rows keeps the ingredient id column
duplicate-free. -/
theorem bulkAdd_ids_nodup (df_ings : List Ingredient) (raw : String) (d : Bool)
    (dc dfv : String)
    (hg : (df_ings.map (fun g => g.id)).Nodup) :
    ((df_ings ++ (bulkAdd df_ings raw d dc dfv).newRows).map (fun g => g.id)).Nodup := by
  by_cases he : (tokenize raw).isEmpty = true
  · have heq : bulkAdd df_ings raw d dc dfv = ⟨[], 0, true⟩ := by
      simp only [bulkAdd]
      rw [if_pos he]
    rw [heq]
    simpa using hg
  · have heq : (bulkAdd df_ings raw d dc dfv).newRows =
        (bulkLoop dc dfv ⟨df_ings.map (fun g => lowerStr g.inci_name),
            nextId (df_ings.map (fun g => g.id)), [], 0⟩
          (if d then pyDedup [] (tokenize raw) else tokenize raw)).rows := by
      simp only [bulkAdd]
      rw [if_neg he]
    obtain ⟨rows, h1, h2, h3, h4⟩ := bulkLoop_spec dc dfv
      (if d then pyDedup [] (tokenize raw) else tokenize raw)
      ⟨df_ings.map (fun g => lowerStr g.inci_name),
        nextId (df_ings.map (fun g => g.id)), [], 0⟩
    rw [heq, h1]
    exact nodup_ids_append (fun g => g.id) df_ings rows hg h2

/-- Both bulk-add runs on the list "Aqua, Aqua, Glycerin" (with and without
the pre-pass de-duplication) reach the same final loop state: two appended
rows, Aqua then Glycerin. -/
theorem bulkLoop_aqua_glycerin (dc dfv : String) (E : List String) (N : Nat)
    (R : List Ingredient) (A : Nat)
    (ha : "aqua" ∉ E) (hg : "glycerin" ∉ E) :
    bulkLoop dc dfv ⟨E, N, R, A⟩ ["Aqua", "Aqua", "Glycerin"] =
        ⟨(E ++ ["aqua"]) ++ ["glycerin"], N + 1 + 1,
          (R ++ [⟨N, "Aqua", dc, dfv, ""⟩]) ++ [⟨N + 1, "Glycerin", dc, dfv, ""⟩],
          A + 1 + 1⟩ ∧
    bulkLoop dc dfv ⟨E, N, R, A⟩ ["Aqua", "Glycerin"] =
        ⟨(E ++ ["aqua"]) ++ ["glycerin"], N + 1 + 1,
          (R ++ [⟨N, "Aqua", dc, dfv, ""⟩]) ++ [⟨N + 1, "Glycerin", dc, dfv, ""⟩],
          A + 1 + 1⟩ := by
  have e1 : lowerStr "Aqua" = "aqua" := by decide
  have e2 : lowerStr "Glycerin" = "glycerin" := by decide
  have hne : ("glycerin" : String) ≠ "aqua" := by decide
  have s1 : bulkStep dc dfv ⟨E, N, R, A⟩ "Aqua" =
      ⟨E ++ ["aqua"], N + 1, R ++ [⟨N, "Aqua", dc, dfv, ""⟩], A + 1⟩ := by
    rw [bulkStep_new dc dfv ⟨E, N, R, A⟩ "Aqua" (by rw [e1]; exact ha), e1]
  have s2 : bulkStep dc dfv
      (⟨E ++ ["aqua"], N + 1, R ++ [⟨N, "Aqua", dc, dfv, ""⟩], A + 1⟩ : BulkState)
      "Aqua" =
      ⟨E ++ ["aqua"], N + 1, R ++ [⟨N, "Aqua", dc, dfv, ""⟩], A + 1⟩ :=
    bulkStep_mem dc dfv _ "Aqua" (by rw [e1]; simp)
  have s3 : bulkStep dc dfv
      (⟨E ++ ["aqua"], N + 1, R ++ [⟨N, "Aqua", dc, dfv, ""⟩], A + 1⟩ : BulkState)
      "Glycerin" =
      ⟨(E ++ ["aqua"]) ++ ["glycerin"], N + 1 + 1,
        (R ++ [⟨N, "Aqua", dc, dfv, ""⟩]) ++ [⟨N + 1, "Glycerin", dc, dfv, ""⟩],
        A + 1 + 1⟩ := by
    rw [bulkStep_new dc dfv _ "Glycerin" (by rw [e2]; simp [hg, hne]), e2]
  constructor
  · rw [bulkLoop_cons, s1, bulkLoop_cons, s2, bulkLoop_cons, s3]
    rfl
  · rw [bulkLoop_cons, s1, bulkLoop_cons, s3]
    rfl

/-- C4: when the local ingredient view has no case-insensitive duplicate
INCI names, the ingredient-line loop (a) only appends to the view (the
appended rows being exactly the sheet appends), (b) keeps the lower-cased
INCI names duplicate-free — so a line whose INCI matches an existing row in
any case never creates a duplicate row — and (c) links every emitted
FormulationIngredient row to the id of the unique row of the final view
whose INCI matches the line case-insensitively: the pre-existing row when
one existed, otherwise the row created for the first line with that name,
which later lines of the same submission reuse. -/
theorem C4_case_insensitive_reuse (fid : Nat) (st : SubmissionState)
    (lines : List String)
    (h : (st.ings.map (fun g => lowerStr g.inci_name)).Nodup) :
    ∃ created newFis,
      (processIngLines fid st lines).ings = st.ings ++ created ∧
      (processIngLines fid st lines).newIngs = st.newIngs ++ created ∧
      (processIngLines fid st lines).fiRows = st.fiRows ++ newFis ∧
      ((processIngLines fid st lines).ings.map (fun g => lowerStr g.inci_name)).Nodup ∧
      (∀ pr ∈ newFis.zip (validLines lines), ∃ g,
        (processIngLines fid st lines).ings.find?
            (fun x => lowerStr x.inci_name == lowerStr (lineInci pr.2)) = some g ∧
        pr.1.ingredient_id = g.id) := by
  obtain ⟨created, newFis, h1, h2, h3, _, _, _, _, _, h9, h10⟩ :=
    processIngLines_spec fid lines st
  refine ⟨created, newFis, h1, h2, h3, ?_, h9⟩
  rw [h1]
  exact h10 h

/-- Witness for C4 at a concrete state and line list. -/
theorem C4_witness :
    (exSubState.ings.map (fun g => lowerStr g.inci_name)).Nodup ∧
    (∃ created newFis,
      (processIngLines 1 exSubState exLines).ings = exSubState.ings ++ created ∧
      (processIngLines 1 exSubState exLines).newIngs = exSubState.newIngs ++ created ∧
      (processIngLines 1 exSubState exLines).fiRows = exSubState.fiRows ++ newFis ∧
      ((processIngLines 1 exSubState exLines).ings.map
        (fun g => lowerStr g.inci_name)).Nodup ∧
      (∀ pr ∈ newFis.zip (validLines exLines), ∃ g,
        (processIngLines 1 exSubState exLines).ings.find?
            (fun x => lowerStr x.inci_name == lowerStr (lineInci pr.2)) = some g ∧
        pr.1.ingredient_id = g.id)) :=
  ⟨by decide, C4_case_insensitive_reuse 1 exSubState exLines (by decide)⟩

/-- C7: the ingredient-line loop is unchanged by removing the lines with
fewer than 4 pipe fields (each such line is skipped silently, affecting
nothing else), and the ingredient and FormulationIngredient ids assigned to
the remaining valid lines are consecutive from the initial counters — no id
gap is left for a skipped line, and one FI row is emitted per valid line. -/
theorem C7_short_lines_skipped (fid : Nat) (st : SubmissionState)
    (lines : List String) :
    processIngLines fid st lines = processIngLines fid st (validLines lines) ∧
    ∃ created newFis,
      (processIngLines fid st lines).newIngs = st.newIngs ++ created ∧
      (processIngLines fid st lines).fiRows = st.fiRows ++ newFis ∧
      created.map (fun g => g.id) = List.range' st.next_ing created.length ∧
      newFis.map (fun r => r.id) = List.range' st.next_fi newFis.length ∧
      newFis.length = (validLines lines).length := by
  refine ⟨processIngLines_validLines fid lines st, ?_⟩
  obtain ⟨created, newFis, _, h2, h3, hc4, _, h6, _, h8, _, _⟩ :=
    processIngLines_spec fid lines st
  exact ⟨created, newFis, h2, h3, hc4, h6, h8⟩

/-- C9: selecting "new brand" with a name that is empty after trimming makes
the submission stop with the validation error before any write: the handler
returns the error with empty writes for all four sheets, and applying those
writes leaves every table unchanged. -/
theorem C9_empty_new_brand_halts (t : Tables) (s : Submission)
    (hnew : s.sel_brand = "(new)") (hempty : stripStr s.new_brand_name = "") :
    addFormulation t s = (.error "Please enter a new brand name.", ⟨[], [], [], []⟩) ∧
    applyWrites t (addFormulation t s).2 = t := by
  have heq : addFormulation t s =
      (.error "Please enter a new brand name.", ⟨[], [], [], []⟩) := by
    unfold addFormulation
    rw [hnew]
    simp [hempty]
  refine ⟨heq, ?_⟩
  rw [heq]
  cases t
  simp [applyWrites]

/-- Witness for C9 at a concrete submission and empty tables. -/
theorem C9_witness :
    (exSubEmptyBrand.sel_brand = "(new)" ∧
      stripStr exSubEmptyBrand.new_brand_name = "") ∧
    (addFormulation exTables exSubEmptyBrand =
        (.error "Please enter a new brand name.", ⟨[], [], [], []⟩) ∧
      applyWrites exTables (addFormulation exTables exSubEmptyBrand).2 = exTables) :=
  ⟨⟨rfl, by decide⟩,
    C9_empty_new_brand_halts exTables exSubEmptyBrand rfl (by decide)⟩

/-- C6: bulk-adding "Aqua, Aqua, Glycerin" to a table that contains neither
name (case-insensitively) appends exactly the two rows Aqua then Glycerin,
for both settings of the de-duplication flag — with it off, the second Aqua
is caught by the existing-name set extended during the same pass — and the
reported count is 2; in general the reported count always equals the number
of rows actually appended. -/
theorem C6_bulk_aqua_glycerin (df_ings : List Ingredient) (d : Bool) (dc dfv : String)
    (ha : "aqua" ∉ df_ings.map (fun g => lowerStr g.inci_name))
    (hg : "glycerin" ∉ df_ings.map (fun g => lowerStr g.inci_name)) :
    (bulkAdd df_ings "Aqua, Aqua, Glycerin" d dc dfv).newRows.map
        (fun g => g.inci_name) = ["Aqua", "Glycerin"] ∧
    (bulkAdd df_ings "Aqua, Aqua, Glycerin" d dc dfv).added = 2 ∧
    (∀ (df2 : List Ingredient) (raw : String) (d2 : Bool) (c2 f2 : String),
      (bulkAdd df2 raw d2 c2 f2).added = (bulkAdd df2 raw d2 c2 f2).newRows.length) := by
  have htok : tokenize "Aqua, Aqua, Glycerin" = ["Aqua", "Aqua", "Glycerin"] := by decide
  have hdedup : pyDedup [] ["Aqua", "Aqua", "Glycerin"] = ["Aqua", "Glycerin"] := by decide
  obtain ⟨hl3, hl2⟩ := bulkLoop_aqua_glycerin dc dfv
    (df_ings.map (fun g => lowerStr g.inci_name)) (nextId (df_ings.map (fun g => g.id)))
    [] 0 ha hg
  have hcompute : bulkAdd df_ings "Aqua, Aqua, Glycerin" d dc dfv =
      ⟨[⟨nextId (df_ings.map (fun g => g.id)), "Aqua", dc, dfv, ""⟩,
        ⟨nextId (df_ings.map (fun g => g.id)) + 1, "Glycerin", dc, dfv, ""⟩], 2, false⟩ := by
    cases d with
    | true =>
      simp only [bulkAdd, htok, hdedup]
      simp only [List.isEmpty_cons, Bool.false_eq_true, if_false, if_true]
      rw [hl2]
      rfl
    | false =>
      simp only [bulkAdd, htok]
      simp only [List.isEmpty_cons, Bool.false_eq_true, if_false]
      rw [hl3]
      rfl
  rw [hcompute]
  exact ⟨rfl, rfl, fun df2 raw d2 c2 f2 => bulkAdd_added_eq_length df2 raw d2 c2 f2⟩

/-- Witness for C6 at an empty ingredient table with de-duplication off. -/
theorem C6_witness :
    ("aqua" ∉ ([] : List Ingredient).map (fun g => lowerStr g.inci_name) ∧
      "glycerin" ∉ ([] : List Ingredient).map (fun g => lowerStr g.inci_name)) ∧
    ((bulkAdd [] "Aqua, Aqua, Glycerin" false "c" "f").newRows.map
        (fun g => g.inci_name) = ["Aqua", "Glycerin"] ∧
      (bulkAdd [] "Aqua, Aqua, Glycerin" false "c" "f").added = 2 ∧
      (∀ (df2 : List Ingredient) (raw : String) (d2 : Bool) (c2 f2 : String),
        (bulkAdd df2 raw d2 c2 f2).added = (bulkAdd df2 raw d2 c2 f2).newRows.length)) :=
  ⟨⟨by decide, by decide⟩,
    C6_bulk_aqua_glycerin [] false "c" "f" (by decide) (by decide)⟩

/-- C5: the next-id rule gives 1 on an empty table and a value strictly
above every existing id (so ids are never reused); consequently, whatever the
submission, the four tables still have duplicate-free id columns after an
add-formulation submission's appends, and the ingredient table does after a
bulk add. -/
theorem C5_monotonic_ids (t : Tables) (s : Submission) (raw : String) (d : Bool)
    (dc dfv : String)
    (hb : (t.brands.map (fun b => b.id)).Nodup)
    (hf : (t.forms.map (fun f => f.id)).Nodup)
    (hg : (t.ings.map (fun g => g.id)).Nodup)
    (hr : (t.fi.map (fun r => r.id)).Nodup) :
    nextId [] = 1 ∧
    (∀ (ids : List Nat) (i : Nat), i ∈ ids → i < nextId ids) ∧
    ((applyWrites t (addFormulation t s).2).brands.map (fun b => b.id)).Nodup ∧
    ((applyWrites t (addFormulation t s).2).forms.map (fun f => f.id)).Nodup ∧
    ((applyWrites t (addFormulation t s).2).ings.map (fun g => g.id)).Nodup ∧
    ((applyWrites t (addFormulation t s).2).fi.map (fun r => r.id)).Nodup ∧
    ((t.ings ++ (bulkAdd t.ings raw d dc dfv).newRows).map (fun g => g.id)).Nodup := by
  have hall : ((applyWrites t (addFormulation t s).2).brands.map (fun b => b.id)).Nodup ∧
      ((applyWrites t (addFormulation t s).2).forms.map (fun f => f.id)).Nodup ∧
      ((applyWrites t (addFormulation t s).2).ings.map (fun g => g.id)).Nodup ∧
      ((applyWrites t (addFormulation t s).2).fi.map (fun r => r.id)).Nodup := by
    by_cases hb1 : (s.sel_brand != "(new)") = true
    · cases hbf : t.brands.find? (fun b => b.name == s.sel_brand) with
      | none =>
        have heq : addFormulation t s =
            (.error "Failed to save: brand not found", ⟨[], [], [], []⟩) := by
          unfold addFormulation
          rw [if_pos hb1, hbf]
        rw [heq]
        exact ⟨by simpa [applyWrites] using hb, by simpa [applyWrites] using hf,
          by simpa [applyWrites] using hg, by simpa [applyWrites] using hr⟩
      | some b =>
        have heq : addFormulation t s = addFormulationWithBrand t s b.id [] := by
          unfold addFormulation
          rw [if_pos hb1, hbf]
        rw [heq]
        have hw := withBrand_tables_nodup t s b.id [] hf hg hr
        refine ⟨?_, hw.1, hw.2.1, hw.2.2⟩
        show ((t.brands ++ ([] : List Brand)).map (fun b => b.id)).Nodup
        simpa using hb
    · by_cases hemp : (stripStr s.new_brand_name == "") = true
      · have heq : addFormulation t s =
            (.error "Please enter a new brand name.", ⟨[], [], [], []⟩) := by
          unfold addFormulation
          rw [if_neg hb1, if_pos hemp]
        rw [heq]
        exact ⟨by simpa [applyWrites] using hb, by simpa [applyWrites] using hf,
          by simpa [applyWrites] using hg, by simpa [applyWrites] using hr⟩
      · have heq : addFormulation t s = addFormulationWithBrand
            { t with brands := t.brands ++
                [⟨nextId (t.brands.map (fun b => b.id)), stripStr s.new_brand_name⟩] }
            s (nextId (t.brands.map (fun b => b.id)))
            [⟨nextId (t.brands.map (fun b => b.id)), stripStr s.new_brand_name⟩] := by
          unfold addFormulation
          rw [if_neg hb1, if_neg hemp]
        rw [heq]
        have hw := withBrand_tables_nodup
          { t with brands := t.brands ++
              [⟨nextId (t.brands.map (fun b => b.id)), stripStr s.new_brand_name⟩] }
          s (nextId (t.brands.map (fun b => b.id)))
          [⟨nextId (t.brands.map (fun b => b.id)), stripStr s.new_brand_name⟩]
          hf hg hr
        refine ⟨?_, hw.1, hw.2.1, hw.2.2⟩
        show ((t.brands ++
          [(⟨nextId (t.brands.map (fun b : Brand => b.id)), stripStr s.new_brand_name⟩ :
            Brand)]).map (fun b => b.id)).Nodup
        exact nodup_ids_append (fun b : Brand => b.id) t.brands
          [⟨nextId (t.brands.map (fun b : Brand => b.id)), stripStr s.new_brand_name⟩]
          hb rfl
  exact ⟨rfl, mem_lt_nextId, hall.1, hall.2.1, hall.2.2.1, hall.2.2.2,
    bulkAdd_ids_nodup t.ings raw d dc dfv hg⟩

/-- Witness for C5: one-row tables with distinct ids, a concrete submission
and bulk input. -/
theorem C5_witness :
    (((⟨[⟨1, "Acme"⟩], [⟨1, "F1", 1, "Bodycare", "Body Wash", ""⟩],
        [⟨1, "Aqua", "Water", "Solvent", ""⟩], [⟨1, 1, 1, "60", "A", ""⟩]⟩ :
          Tables).brands.map (fun b => b.id)).Nodup ∧
      ((⟨[⟨1, "Acme"⟩], [⟨1, "F1", 1, "Bodycare", "Body Wash", ""⟩],
        [⟨1, "Aqua", "Water", "Solvent", ""⟩], [⟨1, 1, 1, "60", "A", ""⟩]⟩ :
          Tables).forms.map (fun f => f.id)).Nodup ∧
      ((⟨[⟨1, "Acme"⟩], [⟨1, "F1", 1, "Bodycare", "Body Wash", ""⟩],
        [⟨1, "Aqua", "Water", "Solvent", ""⟩], [⟨1, 1, 1, "60", "A", ""⟩]⟩ :
          Tables).ings.map (fun g => g.id)).Nodup ∧
      ((⟨[⟨1, "Acme"⟩], [⟨1, "F1", 1, "Bodycare", "Body Wash", ""⟩],
        [⟨1, "Aqua", "Water", "Solvent", ""⟩], [⟨1, 1, 1, "60", "A", ""⟩]⟩ :
          Tables).fi.map (fun r => r.id)).Nodup) ∧
    (nextId [] = 1 ∧
      (∀ (ids : List Nat) (i : Nat), i ∈ ids → i < nextId ids) ∧
      ((applyWrites (⟨[⟨1, "Acme"⟩], [⟨1, "F1", 1, "Bodycare", "Body Wash", ""⟩],
          [⟨1, "Aqua", "Water", "Solvent", ""⟩], [⟨1, 1, 1, "60", "A", ""⟩]⟩ : Tables)
          (addFormulation (⟨[⟨1, "Acme"⟩], [⟨1, "F1", 1, "Bodycare", "Body Wash", ""⟩],
            [⟨1, "Aqua", "Water", "Solvent", ""⟩], [⟨1, 1, 1, "60", "A", ""⟩]⟩ : Tables)
            exSubEmptyBrand).2).brands.map (fun b => b.id)).Nodup ∧
      ((applyWrites (⟨[⟨1, "Acme"⟩], [⟨1, "F1", 1, "Bodycare", "Body Wash", ""⟩],
          [⟨1, "Aqua", "Water", "Solvent", ""⟩], [⟨1, 1, 1, "60", "A", ""⟩]⟩ : Tables)
          (addFormulation (⟨[⟨1, "Acme"⟩], [⟨1, "F1", 1, "Bodycare", "Body Wash", ""⟩],
            [⟨1, "Aqua", "Water", "Solvent", ""⟩], [⟨1, 1, 1, "60", "A", ""⟩]⟩ : Tables)
            exSubEmptyBrand).2).forms.map (fun f => f.id)).Nodup ∧
      ((applyWrites (⟨[⟨1, "Acme"⟩], [⟨1, "F1", 1, "Bodycare", "Body Wash", ""⟩],
          [⟨1, "Aqua", "Water", "Solvent", ""⟩], [⟨1, 1, 1, "60", "A", ""⟩]⟩ : Tables)
          (addFormulation (⟨[⟨1, "Acme"⟩], [⟨1, "F1", 1, "Bodycare", "Body Wash", ""⟩],
            [⟨1, "Aqua", "Water", "Solvent", ""⟩], [⟨1, 1, 1, "60", "A", ""⟩]⟩ : Tables)
            exSubEmptyBrand).2).ings.map (fun g => g.id)).Nodup ∧
      ((applyWrites (⟨[⟨1, "Acme"⟩], [⟨1, "F1", 1, "Bodycare", "Body Wash", ""⟩],
          [⟨1, "Aqua", "Water", "Solvent", ""⟩], [⟨1, 1, 1, "60", "A", ""⟩]⟩ : Tables)
          (addFormulation (⟨[⟨1, "Acme"⟩], [⟨1, "F1", 1, "Bodycare", "Body Wash", ""⟩],
            [⟨1, "Aqua", "Water", "Solvent", ""⟩], [⟨1, 1, 1, "60", "A", ""⟩]⟩ : Tables)
            exSubEmptyBrand).2).fi.map (fun r => r.id)).Nodup ∧
      (((⟨[⟨1, "Acme"⟩], [⟨1, "F1", 1, "Bodycare", "Body Wash", ""⟩],
          [⟨1, "Aqua", "Water", "Solvent", ""⟩], [⟨1, 1, 1, "60", "A", ""⟩]⟩ :
            Tables).ings ++
        (bulkAdd (⟨[⟨1, "Acme"⟩], [⟨1, "F1", 1, "Bodycare", "Body Wash", ""⟩],
          [⟨1, "Aqua", "Water", "Solvent", ""⟩], [⟨1, 1, 1, "60", "A", ""⟩]⟩ :
            Tables).ings "Dimethicone" true "c" "f").newRows).map
          (fun g => g.id)).Nodup) :=
  ⟨⟨by decide, by decide, by decide, by decide⟩,
    C5_monotonic_ids _ exSubEmptyBrand "Dimethicone" true "c" "f"
      (by decide) (by decide) (by decide) (by decide)⟩

end AppGsheets
